import Mathlib

/-!
Verification of the qlib worker thread pool (src/thread_pool.h).

The pool is embedded as a pure state machine. A `PoolState` carries the
task queue `m_tasks` (head of the list = front of the `std::queue`), the
`m_stop` flag, a store `results` of the resolved futures (the shared state
written by each `packaged_task` when a worker invokes it), and `nextId`, the
identity of the next future handed out by `enqueue`. A worker-loop iteration
is `workerIter`; teardown is `destructor`. A zero-argument callable either
returns a value or throws, so the invocation of a packaged task is embedded
as an `Outcome`: `Except.ok v` for a normal return, `Except.error e` for a
task that throws an exception carrying message `e` (the `packaged_task`
captures the exception into the future's shared state).
-/

namespace qlib

/-- Values computed by tasks (the return types used by the pool's tests:
`void`, `int`, `std::string`). -/
inductive Val where
  | unit : Val
  | int : Int → Val
  | str : String → Val
deriving DecidableEq, Repr

deriving instance DecidableEq for Except

/-- The result of invoking a zero-argument callable directly: a normal
return value, or an exception with message `e`. -/
abbrev Outcome := Except String Val

/-- A packaged task sitting in the queue: the identity `tid` of the future
derived from it, and the outcome `body` its invocation stores there. -/
structure Task where
  tid : Nat
  body : Outcome
deriving DecidableEq, Repr

/-- The pool's shared state: the fields of `thread_pool` (lines 202-227)
plus the store of resolved futures. -/
structure PoolState where
  m_tasks : List Task
  m_stop : Bool
  results : List (Nat × Outcome)
  nextId : Nat
deriving DecidableEq, Repr

/-- Constructor member initialisers (lines 101-105): empty queue, stop flag
down, no futures resolved yet. -/
def initPool : PoolState :=
  { m_tasks := [], m_stop := false, results := [], nextId := 0 }

/-- `enqueue(fn, args...)` (lines 175-200): `std::bind` packages `fn` with
its arguments into a zero-argument task whose invocation computes `fn arg`;
a future (identified by the fresh `nextId`) is derived from it. Under the
lock, if `m_stop` is set the call throws `std::runtime_error` (returned here
as `Except.error`, with the state unchanged); otherwise the task is emplaced
at the tail of `m_tasks` and the future is returned. -/
def enqueue {α : Type} (p : PoolState) (fn : α → Outcome) (arg : α) :
    Except String Nat × PoolState :=
  let body : Outcome := fn arg
  let tid : Nat := p.nextId
  if p.m_stop then
    (Except.error "attempt to enqueue on stopped thread pool", p)
  else
    (Except.ok tid,
      { p with m_tasks := p.m_tasks ++ [⟨tid, body⟩], nextId := tid + 1 })

/-- The condition-variable wait predicate (line 126):
`m_stop || !m_tasks.empty()`. -/
def wakePred (p : PoolState) : Bool :=
  p.m_stop || !p.m_tasks.isEmpty

/-- What one iteration of the worker loop does once it is past the wait. -/
inductive WorkerOutcome where
  | stopRequested : WorkerOutcome
  | ranTask : Task → WorkerOutcome
deriving DecidableEq, Repr

/-- One iteration of the worker loop body (lines 115-137). The worker waits
until `wakePred` holds (`none` = the predicate is false, the worker stays
blocked in the wait). Past the wait, if `m_stop && m_tasks.empty()` it
returns from the loop (line 129); otherwise it moves the front task out of
the queue, unlocks, and invokes it (lines 131-136); the invocation stores
the task's outcome into its future's shared state. -/
def workerIter (p : PoolState) : Option (WorkerOutcome × PoolState) :=
  if wakePred p then
    if p.m_stop && p.m_tasks.isEmpty then
      some (.stopRequested, p)
    else
      match p.m_tasks with
      | [] => none
      | t :: rest =>
          some (.ranTask t,
            { p with m_tasks := rest, results := (t.tid, t.body) :: p.results })
  else
    none

/-- Up to `n` further iterations of one worker's loop, recording what each
iteration did. Iteration stops early when the worker blocks (`none`) or
returns from the loop (`stopRequested`). -/
def workerSteps : Nat → PoolState → List WorkerOutcome × PoolState
  | 0, p => ([], p)
  | n + 1, p =>
    match workerIter p with
    | none => ([], p)
    | some (.stopRequested, p') => ([.stopRequested], p')
    | some (.ranTask t, p') =>
        let r := workerSteps n p'
        (.ranTask t :: r.1, r.2)

/-- Status of one worker thread of `m_workers`. -/
inductive WStatus where
  | looping : WStatus
  | exited : WStatus
deriving DecidableEq, Repr

/-- The whole pool object: shared state plus the `m_workers` vector. -/
structure SysState where
  pool : PoolState
  workers : List WStatus
deriving DecidableEq, Repr

/-- The constructor `thread_pool(num_threads)` (lines 99-140): initialises
the shared state and emplaces exactly `num_threads` worker threads, each
running the loop embedded by `workerIter`. -/
def thread_pool (num_threads : Nat) : SysState :=
  { pool := initPool, workers := List.replicate num_threads .looping }

/-- Construction with the argument omitted: the default argument is
`thread::hardware_concurrency()` (line 100), a platform-reported value used
as given, with no clamping. -/
def thread_pool_default (hardware_concurrency : Nat) : SysState :=
  thread_pool hardware_concurrency

/-- Lines 149-151 of the destructor: raise the stop flag under the lock. -/
def raiseStop (p : PoolState) : PoolState :=
  { p with m_stop := true }

/-- Invoke each queued task front-to-back, storing each outcome into its
future. This is the net effect on the shared state of the worker loop
running from state `p` until it returns, once the stop flag is up. -/
def drainTasks : List Task → List (Nat × Outcome) → List (Nat × Outcome)
  | [], res => res
  | t :: rest, res => drainTasks rest ((t.tid, t.body) :: res)

/-- The shared state after a worker's loop has run to its return, with the
stop flag up: the queue is empty and every queued task has been invoked. -/
def drainPool (p : PoolState) : PoolState :=
  { p with m_tasks := [], results := drainTasks p.m_tasks p.results }

/-- `w.join()` on one worker (line 154): a worker still looping runs until
its loop returns (draining the queue, stop flag being up); a worker that
already returned joins immediately. -/
def joinWorker (p : PoolState) (w : WStatus) : PoolState × WStatus :=
  match w with
  | .exited => (p, .exited)
  | .looping => (drainPool p, .exited)

/-- `for (auto& w : m_workers) w.join();` (line 154): join each worker in
order, threading the shared state through. -/
def joinAll (p : PoolState) : List WStatus → PoolState × List WStatus
  | [] => (p, [])
  | w :: ws =>
    let j := joinWorker p w
    let r := joinAll j.1 ws
    (r.1, j.2 :: r.2)

/-- The destructor `~thread_pool` (lines 147-155): raise the stop flag under
the lock, release the lock, `notify_all` (wakes every waiter so each
re-checks the predicate), then join every worker. It returns only once
every worker has exited its loop. -/
def destructor (sys : SysState) : SysState :=
  let p := raiseStop sys.pool
  let r := joinAll p sys.workers
  { pool := r.1, workers := r.2 }

/-- The terminal state: stop flag up and every worker joined. -/
def isStopped (sys : SysState) : Bool :=
  sys.pool.m_stop && sys.workers.all (fun w => w == WStatus.exited)

/-- The resolved outcome, if any, held by the future with identity `tid`. -/
def lookupResult : List (Nat × Outcome) → Nat → Option Outcome
  | [], _ => none
  | (i, o) :: rest, tid => if i = tid then some o else lookupResult rest tid

/-- `future::get()`: blocks until the future is resolved, then returns the
stored value, or re-raises the stored exception (`Except.error`). `none`
embeds a `get` that never returns because the future is never written. -/
def future_get (res : List (Nat × Outcome)) (tid : Nat) : Option Outcome :=
  lookupResult res tid

/-- `future::wait()`: blocks until the future is resolved and returns
without raising, whether the stored outcome is a value or an exception. -/
def future_wait (res : List (Nat × Outcome)) (tid : Nat) : Option Unit :=
  (lookupResult res tid).map (fun _ => ())

/-- How many times the future with identity `tid` has been written. -/
def writeCount (res : List (Nat × Outcome)) (tid : Nat) : Nat :=
  res.countP (fun e => e.1 == tid)

/-- The tasks `enqueue` builds for a batch of (callable, argument) pairs
submitted in order starting from future identity `n0`. -/
def mkTasks (n0 : Nat) : List ((Val → Outcome) × Val) → List Task
  | [] => []
  | j :: rest => ⟨n0, j.1 j.2⟩ :: mkTasks (n0 + 1) rest

/-- The futures `enqueue` returns for `k` tasks accepted in order starting
from identity `n0`. -/
def mkHandles (n0 : Nat) : Nat → List (Except String Nat)
  | 0 => []
  | k + 1 => Except.ok n0 :: mkHandles (n0 + 1) k

/-- Call `enqueue` once per (callable, argument) pair, in order, collecting
the returned futures. -/
def submitAll (p : PoolState) :
    List ((Val → Outcome) × Val) → List (Except String Nat) × PoolState
  | [] => ([], p)
  | j :: rest =>
    let e := enqueue p j.1 j.2
    let r := submitAll e.2 rest
    (e.1 :: r.1, r.2)

/-- A full lifecycle: construct a pool of `n` workers, submit every
(callable, argument) pair while it is running, then let it go out of scope
(the destructor runs). Returns the futures and the final pool object. -/
def runPool (n : Nat) (jobs : List ((Val → Outcome) × Val)) :
    List (Except String Nat) × SysState :=
  let sys := thread_pool n
  let s := submitAll sys.pool jobs
  (s.1, destructor { pool := s.2, workers := sys.workers })

/-! ### Lock-discipline trace model

The source's critical sections are short, straight-line code, so the order
of the primitive actions of each routine — acquiring and releasing the
queue mutex, checking flags, pushing/popping, invoking a task, notifying —
is embedded as a literal list of micro-operations read off the source
lines, and the mutex state during each action is computed from it. -/

/-- A primitive action on the pool's shared state. -/
inductive MicroOp where
  | lockAcquire : MicroOp
  | lockRelease : MicroOp
  | checkStop : MicroOp
  | popFront : MicroOp
  | pushBack : MicroOp
  | execTask : MicroOp
  | notifyOne : MicroOp
  | notifyAll : MicroOp
  | setStop : MicroOp
  | joinOne : MicroOp
deriving DecidableEq, Repr

/-- Whether the queue mutex is held after an action, given whether it was
held before. -/
def locksAfter (held : Bool) : MicroOp → Bool
  | .lockAcquire => true
  | .lockRelease => false
  | _ => held

/-- Annotate each action of a straight-line sequence with whether the queue
mutex is held while it runs (for the acquire itself, once acquired). -/
def lockTrace (held : Bool) : List MicroOp → List (MicroOp × Bool)
  | [] => []
  | op :: rest =>
    let h := locksAfter held op
    (op, h) :: lockTrace h rest

/-- The actions of one worker-loop iteration that pops and runs a task
(lines 121-136): acquire the lock (the wait at lines 122-127 re-acquires it
before the predicate check succeeds), check the exit condition, move the
front task out, unlock, then invoke the task. -/
def workerIterOps : List MicroOp :=
  [.lockAcquire, .checkStop, .popFront, .lockRelease, .execTask]

/-- The actions of `enqueue` after packaging the task (lines 188-198):
acquire the lock, check the stop flag, emplace at the tail, unlock, then
`notify_one`. -/
def enqueueOps : List MicroOp :=
  [.lockAcquire, .checkStop, .pushBack, .lockRelease, .notifyOne]

/-- The actions of the destructor (lines 147-155): acquire the lock, set
the stop flag, unlock, `notify_all`, then join each of the `n` workers. -/
def destructorOps (n : Nat) : List MicroOp :=
  [.lockAcquire, .setStop, .lockRelease, .notifyAll] ++
    List.replicate n .joinOne

/-! ### Basic lemmas about the operations -/

lemma enqueue_running {α : Type} (p : PoolState) (fn : α → Outcome) (arg : α)
    (h : p.m_stop = false) :
    enqueue p fn arg
      = (Except.ok p.nextId,
         { p with m_tasks := p.m_tasks ++ [⟨p.nextId, fn arg⟩],
                  nextId := p.nextId + 1 }) := by
  simp [enqueue, h]

lemma enqueue_stopped {α : Type} (p : PoolState) (fn : α → Outcome) (arg : α)
    (h : p.m_stop = true) :
    enqueue p fn arg
      = (Except.error "attempt to enqueue on stopped thread pool", p) := by
  simp [enqueue, h]

lemma workerIter_pop (p : PoolState) (t : Task) (rest : List Task)
    (h : p.m_tasks = t :: rest) :
    workerIter p
      = some (.ranTask t,
          { p with m_tasks := rest, results := (t.tid, t.body) :: p.results }) := by
  simp [workerIter, wakePred, h]

lemma workerIter_exit (p : PoolState) (hstop : p.m_stop = true)
    (hempty : p.m_tasks = []) :
    workerIter p = some (.stopRequested, p) := by
  simp [workerIter, wakePred, hstop, hempty]

lemma workerIter_exit_inv (p p' : PoolState)
    (h : workerIter p = some (.stopRequested, p')) :
    p.m_stop = true ∧ p.m_tasks = [] := by
  by_cases hw : wakePred p
  · rw [workerIter, if_pos hw] at h
    by_cases hse : (p.m_stop && p.m_tasks.isEmpty) = true
    · exact ⟨(Bool.and_eq_true _ _ |>.mp hse).1,
        List.isEmpty_iff.mp (Bool.and_eq_true _ _ |>.mp hse).2⟩
    · rw [if_neg hse] at h
      cases hts : p.m_tasks with
      | nil => rw [hts] at h; cases h
      | cons t rest => rw [hts] at h; cases h
  · rw [workerIter, if_neg hw] at h
    cases h

lemma workerIter_ran_inv (p p' : PoolState) (t : Task)
    (h : workerIter p = some (.ranTask t, p')) :
    p.m_tasks = t :: p'.m_tasks := by
  by_cases hw : wakePred p
  · rw [workerIter, if_pos hw] at h
    by_cases hse : (p.m_stop && p.m_tasks.isEmpty) = true
    · rw [if_pos hse] at h; cases h
    · rw [if_neg hse] at h
      cases hts : p.m_tasks with
      | nil => rw [hts] at h; cases h
      | cons t' rest =>
          rw [hts] at h
          cases h
          rfl
  · rw [workerIter, if_neg hw] at h
    cases h

/-! ### Batch submission and draining -/

lemma submitAll_spec (jobs : List ((Val → Outcome) × Val)) :
    ∀ (p : PoolState), p.m_stop = false →
      submitAll p jobs
        = (mkHandles p.nextId jobs.length,
           { p with m_tasks := p.m_tasks ++ mkTasks p.nextId jobs,
                    nextId := p.nextId + jobs.length }) := by
  induction jobs with
  | nil =>
      intro p _
      cases p
      simp [submitAll, mkHandles, mkTasks]
  | cons j rest ih =>
      intro p h
      simp only [submitAll, enqueue_running p j.1 j.2 h]
      rw [ih _ (by simp [h])]
      cases p
      simp only [mkTasks, mkHandles, List.length_cons, Prod.mk.injEq, PoolState.mk.injEq,
        List.append_assoc, List.cons_append, List.nil_append, List.singleton_append]
      refine ⟨trivial, trivial, trivial, trivial, ?_⟩
      omega

lemma mkTasks_tid_ge (jobs : List ((Val → Outcome) × Val)) :
    ∀ (n0 : Nat), ∀ t ∈ mkTasks n0 jobs, n0 ≤ t.tid := by
  induction jobs with
  | nil => intro n0 t ht; cases ht
  | cons j rest ih =>
      intro n0 t ht
      rcases List.mem_cons.mp ht with h | h
      · subst h; exact Nat.le_refl _
      · exact Nat.le_of_succ_le (ih (n0 + 1) t h)

lemma lookupResult_drainTasks_notmem (ts : List Task) :
    ∀ (res : List (Nat × Outcome)) (tid : Nat), (∀ t ∈ ts, t.tid ≠ tid) →
      lookupResult (drainTasks ts res) tid = lookupResult res tid := by
  induction ts with
  | nil => intro res tid _; rfl
  | cons t rest ih =>
      intro res tid h
      simp only [drainTasks]
      rw [ih _ _ (fun t' ht' => h t' (List.mem_cons_of_mem _ ht'))]
      simp [lookupResult, h t (List.mem_cons_self _ _)]

lemma lookupResult_drain_mkTasks (jobs : List ((Val → Outcome) × Val)) :
    ∀ (n0 : Nat) (res : List (Nat × Outcome)) (i : Nat) (hi : i < jobs.length),
      lookupResult (drainTasks (mkTasks n0 jobs) res) (n0 + i)
        = some ((jobs.get ⟨i, hi⟩).1 (jobs.get ⟨i, hi⟩).2) := by
  induction jobs with
  | nil => intro _ _ i hi; exact absurd hi (by simp)
  | cons j rest ih =>
      intro n0 res i hi
      match i with
      | 0 =>
          simp only [mkTasks, drainTasks]
          have hne : ∀ t ∈ mkTasks (n0 + 1) rest, t.tid ≠ n0 + 0 := by
            intro t ht
            have := mkTasks_tid_ge rest (n0 + 1) t ht
            omega
          rw [lookupResult_drainTasks_notmem _ _ _ hne]
          simp [lookupResult]
      | i' + 1 =>
          simp only [mkTasks, drainTasks]
          have harith : n0 + (i' + 1) = (n0 + 1) + i' := by omega
          rw [harith]
          exact ih (n0 + 1) _ i' (by simpa using hi)

lemma writeCount_drainTasks (ts : List Task) :
    ∀ (res : List (Nat × Outcome)) (tid : Nat),
      writeCount (drainTasks ts res) tid
        = writeCount res tid + ts.countP (fun t => t.tid == tid) := by
  induction ts with
  | nil => intro res tid; simp [drainTasks]
  | cons t rest ih =>
      intro res tid
      simp only [drainTasks]
      rw [ih]
      simp only [writeCount, List.countP_cons]
      cases h : (t.tid == tid) <;> simp [h]
      omega

lemma mkTasks_countP_lt (jobs : List ((Val → Outcome) × Val)) :
    ∀ (n0 tid : Nat), tid < n0 →
      (mkTasks n0 jobs).countP (fun t => t.tid == tid) = 0 := by
  intro n0 tid h
  refine List.countP_eq_zero.mpr (fun t ht => ?_)
  have := mkTasks_tid_ge jobs n0 t ht
  simp only [beq_iff_eq]
  omega

lemma mkTasks_countP_one (jobs : List ((Val → Outcome) × Val)) :
    ∀ (n0 i : Nat), i < jobs.length →
      (mkTasks n0 jobs).countP (fun t => t.tid == n0 + i) = 1 := by
  induction jobs with
  | nil => intro _ i hi; exact absurd hi (by simp)
  | cons j rest ih =>
      intro n0 i hi
      match i with
      | 0 =>
          simp only [mkTasks, List.countP_cons]
          rw [mkTasks_countP_lt rest (n0 + 1) (n0 + 0) (by omega)]
          simp
      | i' + 1 =>
          simp only [mkTasks, List.countP_cons]
          have harith : n0 + (i' + 1) = (n0 + 1) + i' := by omega
          rw [harith, ih (n0 + 1) i' (by simpa using hi)]
          simp [Nat.ne_of_lt (show n0 < (n0 + 1) + i' by omega)]

lemma mkHandles_getq (k : Nat) :
    ∀ (n0 i : Nat), i < k →
      (mkHandles n0 k).get? i = some (Except.ok (n0 + i)) := by
  induction k with
  | zero => intro _ i hi; exact absurd hi (by omega)
  | succ k ih =>
      intro n0 i hi
      match i with
      | 0 => simp [mkHandles]
      | i' + 1 =>
          simp only [mkHandles, List.get?_cons_succ]
          have harith : n0 + (i' + 1) = (n0 + 1) + i' := by omega
          rw [harith]
          exact ih (n0 + 1) i' (by omega)

/-! ### The worker loop drains the queue once the stop flag is up -/

lemma drainPool_empty (p : PoolState) (h : p.m_tasks = []) : drainPool p = p := by
  obtain ⟨ts, st, res, nid⟩ := p
  simp only at h
  subst h
  rfl

lemma drainPool_idem (p : PoolState) : drainPool (drainPool p) = drainPool p :=
  drainPool_empty _ rfl

lemma workerSteps_drain (p : PoolState) (hstop : p.m_stop = true) :
    workerSteps (p.m_tasks.length + 1) p
      = (p.m_tasks.map WorkerOutcome.ranTask ++ [WorkerOutcome.stopRequested],
         drainPool p) := by
  obtain ⟨ts, st, res, nid⟩ := p
  simp only at hstop
  subst hstop
  induction ts generalizing res with
  | nil =>
      rw [show ((⟨[], true, res, nid⟩ : PoolState).m_tasks.length + 1) = 1 from rfl]
      rw [workerSteps, workerIter_exit _ rfl rfl]
      simp [drainPool, drainTasks]
  | cons t rest ih =>
      rw [show ((⟨t :: rest, true, res, nid⟩ : PoolState).m_tasks.length + 1)
            = (rest.length + 1) + 1 from rfl]
      rw [workerSteps, workerIter_pop _ t rest rfl]
      have := ih ((t.tid, t.body) :: res)
      simp only at this
      simp only [this, drainPool, drainTasks, List.map_cons, List.cons_append]

lemma joinAll_workers (ws : List WStatus) :
    ∀ (p : PoolState), (joinAll p ws).2 = List.replicate ws.length .exited := by
  induction ws with
  | nil => intro _; rfl
  | cons w rest ih =>
      intro p
      cases w <;> simp [joinAll, joinWorker, ih, List.replicate_succ]

lemma joinAll_stop (ws : List WStatus) :
    ∀ (p : PoolState), ((joinAll p ws).1).m_stop = p.m_stop := by
  induction ws with
  | nil => intro _; rfl
  | cons w rest ih =>
      intro p
      cases w <;> simp [joinAll, joinWorker, ih, drainPool]

lemma joinAll_pool_drained (ws : List WStatus) :
    ∀ (p : PoolState), p.m_tasks = [] → (joinAll p ws).1 = p := by
  induction ws with
  | nil => intro p _; rfl
  | cons w rest ih =>
      intro p h
      cases w
      · simp only [joinAll, joinWorker, drainPool_empty p h]
        exact ih p h
      · simp only [joinAll, joinWorker]
        exact ih p h

lemma joinAll_pool_looping (k : Nat) (p : PoolState) :
    (joinAll p (List.replicate (k + 1) .looping)).1 = drainPool p := by
  rw [List.replicate_succ]
  simp only [joinAll, joinWorker]
  exact joinAll_pool_drained _ _ rfl

lemma destructor_pool_looping (p : PoolState) (k : Nat) :
    (destructor { pool := p, workers := List.replicate (k + 1) .looping }).pool
      = drainPool (raiseStop p) := by
  simp [destructor, joinAll_pool_looping]

/-- The futures a full lifecycle hands out: one per submitted job, in
submission order, identified by 0, 1, 2, ... -/
lemma runPool_fst (n : Nat) (jobs : List ((Val → Outcome) × Val)) :
    (runPool n jobs).1 = mkHandles 0 jobs.length := by
  simp only [runPool, thread_pool]
  rw [submitAll_spec jobs initPool rfl]
  simp [initPool]

/-- The resolved futures of a full lifecycle with at least one worker: the
destructor's join lets the workers drain every queued task. -/
lemma runPool_results (k : Nat) (jobs : List ((Val → Outcome) × Val)) :
    (runPool (k + 1) jobs).2.pool.results = drainTasks (mkTasks 0 jobs) [] := by
  simp only [runPool, thread_pool]
  rw [submitAll_spec jobs initPool rfl]
  rw [destructor_pool_looping]
  simp [drainPool, raiseStop, initPool]

lemma runPool_get (n : Nat) (hn : 1 ≤ n) (jobs : List ((Val → Outcome) × Val))
    (i : Nat) (hi : i < jobs.length) :
    future_get (runPool n jobs).2.pool.results i
      = some ((jobs.get ⟨i, hi⟩).1 (jobs.get ⟨i, hi⟩).2) := by
  obtain ⟨k, rfl⟩ : ∃ k, n = k + 1 := ⟨n - 1, by omega⟩
  rw [runPool_results]
  have := lookupResult_drain_mkTasks jobs 0 [] i hi
  simpa [future_get] using this

lemma runPool_handles (n : Nat) (jobs : List ((Val → Outcome) × Val))
    (i : Nat) (hi : i < jobs.length) :
    (runPool n jobs).1.get? i = some (Except.ok i) := by
  rw [runPool_fst]
  have := mkHandles_getq jobs.length 0 i hi
  simpa using this

lemma runPool_writeCount (n : Nat) (hn : 1 ≤ n)
    (jobs : List ((Val → Outcome) × Val)) (i : Nat) (hi : i < jobs.length) :
    writeCount (runPool n jobs).2.pool.results i = 1 := by
  obtain ⟨k, rfl⟩ : ∃ k, n = k + 1 := ⟨n - 1, by omega⟩
  rw [runPool_results]
  rw [writeCount_drainTasks]
  have := mkTasks_countP_one jobs 0 i hi
  simpa [writeCount] using this

/-! ### The claims -/

/-- Claim C1: for every task submitted while the pool is running (the pool
having at least one worker), `get()` on the future returned by `enqueue`
eventually returns exactly the value the submitted callable computes when
called directly with the same argument. The i-th submission of a full
lifecycle receives the future identified by `i`, and after the pool has run
its course that future holds exactly `fn arg` for the submitted pair
`(fn, arg)` — the direct call's value if it returns, its exception if it
throws. -/
theorem C1_get_returns_direct_value (n : Nat) (hn : 1 ≤ n)
    (jobs : List ((Val → Outcome) × Val)) (i : Nat) (hi : i < jobs.length) :
    (runPool n jobs).1.get? i = some (Except.ok i)
    ∧ future_get (runPool n jobs).2.pool.results i
        = some ((jobs.get ⟨i, hi⟩).1 (jobs.get ⟨i, hi⟩).2) :=
  ⟨runPool_handles n jobs i hi, runPool_get n hn jobs i hi⟩

/-- Witness for C1: one worker, one task returning the string "abc". -/
theorem C1_witness :
    (runPool 1 [((fun v => Except.ok v : Val → Outcome), Val.str "abc")]).1.get? 0
      = some (Except.ok 0)
    ∧ future_get
        (runPool 1 [((fun v => Except.ok v : Val → Outcome), Val.str "abc")]).2.pool.results 0
      = some (Except.ok (Val.str "abc")) :=
  C1_get_returns_direct_value 1 (by decide)
    [((fun v => Except.ok v : Val → Outcome), Val.str "abc")] 0 (by decide)

/-- Claim C2: a task that throws has its exception captured rather than
escaping the worker loop: `wait()` on its future returns without raising,
`get()` on the same future re-raises exactly that exception, and every
other task's future still holds exactly its own task's outcome. -/
theorem C2_failure_isolated (n : Nat) (hn : 1 ≤ n)
    (jobs : List ((Val → Outcome) × Val)) (i : Nat) (hi : i < jobs.length)
    (e : String)
    (he : (jobs.get ⟨i, hi⟩).1 (jobs.get ⟨i, hi⟩).2 = Except.error e) :
    future_wait (runPool n jobs).2.pool.results i = some ()
    ∧ future_get (runPool n jobs).2.pool.results i = some (Except.error e)
    ∧ ∀ (j : Nat) (hj : j < jobs.length), j ≠ i →
        future_get (runPool n jobs).2.pool.results j
          = some ((jobs.get ⟨j, hj⟩).1 (jobs.get ⟨j, hj⟩).2) := by
  refine ⟨?_, ?_, ?_⟩
  · have h := runPool_get n hn jobs i hi
    simp only [future_get] at h
    simp [future_wait, h]
  · rw [runPool_get n hn jobs i hi, he]
  · intro j hj _
    exact runPool_get n hn jobs j hj

/-- Witness for C2: one worker; task 0 throws "test", task 1 returns 5. -/
theorem C2_witness :
    future_wait (runPool 1
        [((fun _ => Except.error "test" : Val → Outcome), Val.unit),
         ((fun v => Except.ok v : Val → Outcome), Val.int 5)]).2.pool.results 0
      = some ()
    ∧ future_get (runPool 1
        [((fun _ => Except.error "test" : Val → Outcome), Val.unit),
         ((fun v => Except.ok v : Val → Outcome), Val.int 5)]).2.pool.results 0
      = some (Except.error "test")
    ∧ future_get (runPool 1
        [((fun _ => Except.error "test" : Val → Outcome), Val.unit),
         ((fun v => Except.ok v : Val → Outcome), Val.int 5)]).2.pool.results 1
      = some (Except.ok (Val.int 5)) := by
  have h := C2_failure_isolated 1 (by decide)
    [((fun _ => Except.error "test" : Val → Outcome), Val.unit),
     ((fun v => Except.ok v : Val → Outcome), Val.int 5)] 0 (by decide) "test" rfl
  exact ⟨h.1, h.2.1, h.2.2 1 (by decide) (by decide)⟩

/-- Claim C3: once the stop flag is set, `enqueue` throws
`std::runtime_error` synchronously to its caller (the error is the call's
own result, not something deferred into a future), and returns the pool
state — queue included — completely unmodified. -/
theorem C3_enqueue_after_stop_rejected {α : Type} (p : PoolState)
    (fn : α → Outcome) (arg : α) (h : p.m_stop = true) :
    enqueue p fn arg
      = (Except.error "attempt to enqueue on stopped thread pool", p) :=
  enqueue_stopped p fn arg h

/-- Witness for C3: a stopped pool with an empty queue rejects a task. -/
theorem C3_witness :
    enqueue (⟨[], true, [], 0⟩ : PoolState) (fun v => Except.ok v) Val.unit
      = (Except.error "attempt to enqueue on stopped thread pool",
         (⟨[], true, [], 0⟩ : PoolState)) :=
  C3_enqueue_after_stop_rejected ⟨[], true, [], 0⟩ (fun v => Except.ok v) Val.unit rfl

/-- Claim C4: a worker returns from its loop only when the stop flag is set
and the queue is simultaneously empty; whenever the queue is non-empty —
stop flag or not — the iteration pops the head task and executes it instead
of exiting; hence once the stop flag is up, the worker's remaining
iterations execute every queued task in order and only then exit. -/
theorem C4_exit_only_stopped_and_empty (p : PoolState) (t : Task)
    (rest : List Task) :
    (∀ p', workerIter p = some (.stopRequested, p') →
        p.m_stop = true ∧ p.m_tasks = [])
    ∧ (p.m_tasks = t :: rest →
        workerIter p
          = some (.ranTask t,
              { p with m_tasks := rest, results := (t.tid, t.body) :: p.results }))
    ∧ (p.m_stop = true →
        workerSteps (p.m_tasks.length + 1) p
          = (p.m_tasks.map WorkerOutcome.ranTask ++ [WorkerOutcome.stopRequested],
             drainPool p)) :=
  ⟨fun p' h => workerIter_exit_inv p p' h,
   fun h => workerIter_pop p t rest h,
   fun h => workerSteps_drain p h⟩

/-- Witness for C4: an exit observed only at stop-and-empty; a pop-and-run
on a non-empty queue with the stop flag up; and a full drain. -/
theorem C4_witness :
    ((⟨[], true, [], 0⟩ : PoolState).m_stop = true
      ∧ (⟨[], true, [], 0⟩ : PoolState).m_tasks = [])
    ∧ workerIter (⟨[⟨0, Except.ok Val.unit⟩], true, [], 1⟩ : PoolState)
        = some (.ranTask ⟨0, Except.ok Val.unit⟩,
            (⟨[], true, [(0, Except.ok Val.unit)], 1⟩ : PoolState))
    ∧ workerSteps 2 (⟨[⟨0, Except.ok Val.unit⟩], true, [], 1⟩ : PoolState)
        = ([.ranTask ⟨0, Except.ok Val.unit⟩, .stopRequested],
           (⟨[], true, [(0, Except.ok Val.unit)], 1⟩ : PoolState)) := by
  refine ⟨(C4_exit_only_stopped_and_empty ⟨[], true, [], 0⟩ ⟨0, Except.ok Val.unit⟩ []).1
            ⟨[], true, [], 0⟩ rfl, ?_, ?_⟩
  · exact (C4_exit_only_stopped_and_empty ⟨[⟨0, Except.ok Val.unit⟩], true, [], 1⟩
      ⟨0, Except.ok Val.unit⟩ []).2.1 rfl
  · exact (C4_exit_only_stopped_and_empty ⟨[⟨0, Except.ok Val.unit⟩], true, [], 1⟩
      ⟨0, Except.ok Val.unit⟩ []).2.2 rfl

/-- Claim C5: the task queue is FIFO. `enqueue` emplaces each accepted task
at the tail, a worker iteration that runs a task removes the current head,
and consequently the order in which a worker's iterations run the queued
tasks is exactly the order in which they entered the queue — no priority
reordering. -/
theorem C5_fifo_order {α : Type} (p : PoolState) (fn : α → Outcome) (arg : α)
    (t : Task) (p' : PoolState) :
    (p.m_stop = false →
        (enqueue p fn arg).2.m_tasks = p.m_tasks ++ [⟨p.nextId, fn arg⟩])
    ∧ (workerIter p = some (.ranTask t, p') → p.m_tasks = t :: p'.m_tasks)
    ∧ (p.m_stop = true →
        (workerSteps (p.m_tasks.length + 1) p).1
          = p.m_tasks.map WorkerOutcome.ranTask ++ [WorkerOutcome.stopRequested]) := by
  refine ⟨fun h => ?_, fun h => workerIter_ran_inv p p' t h, fun h => ?_⟩
  · rw [enqueue_running p fn arg h]
  · rw [workerSteps_drain p h]

/-- Witness for C5: a push lands at the tail behind an older task; a pop
takes the head; a two-task drain runs the tasks in submission order. -/
theorem C5_witness :
    (enqueue (⟨[⟨0, Except.ok Val.unit⟩], false, [], 1⟩ : PoolState)
        (fun v => Except.ok v) (Val.int 7)).2.m_tasks
      = [⟨0, Except.ok Val.unit⟩, ⟨1, Except.ok (Val.int 7)⟩]
    ∧ (⟨[⟨0, Except.ok Val.unit⟩, ⟨1, Except.ok (Val.int 7)⟩], true, [], 2⟩
          : PoolState).m_tasks
        = ⟨0, Except.ok Val.unit⟩ ::
            (⟨[⟨1, Except.ok (Val.int 7)⟩], true,
              [(0, Except.ok Val.unit)], 2⟩ : PoolState).m_tasks
    ∧ (workerSteps 3
        (⟨[⟨0, Except.ok Val.unit⟩, ⟨1, Except.ok (Val.int 7)⟩], true, [], 2⟩
          : PoolState)).1
      = [.ranTask ⟨0, Except.ok Val.unit⟩, .ranTask ⟨1, Except.ok (Val.int 7)⟩,
         .stopRequested] := by
  refine ⟨?_, ?_, ?_⟩
  · exact (C5_fifo_order (⟨[⟨0, Except.ok Val.unit⟩], false, [], 1⟩ : PoolState)
      (fun v => Except.ok v) (Val.int 7) ⟨0, Except.ok Val.unit⟩
      ⟨[], false, [], 0⟩).1 rfl
  · exact (C5_fifo_order
      (⟨[⟨0, Except.ok Val.unit⟩, ⟨1, Except.ok (Val.int 7)⟩], true, [], 2⟩ : PoolState)
      (fun v => Except.ok v) (Val.int 7) ⟨0, Except.ok Val.unit⟩
      (⟨[⟨1, Except.ok (Val.int 7)⟩], true, [(0, Except.ok Val.unit)], 2⟩
        : PoolState)).2.1 rfl
  · exact (C5_fifo_order
      (⟨[⟨0, Except.ok Val.unit⟩, ⟨1, Except.ok (Val.int 7)⟩], true, [], 2⟩ : PoolState)
      (fun v => Except.ok v) (Val.int 7) ⟨0, Except.ok Val.unit⟩
      ⟨[], false, [], 0⟩).2.2 rfl

/-- Claim C6 counterexample: the constructor's default argument is the
platform-reported hardware concurrency used unclamped; on a platform that
reports 0, a default-constructed pool has zero workers, refuting "clamped
to a minimum of 1, so every default-constructed pool has at least one
worker". -/
theorem C6_counterexample :
    (thread_pool_default 0).workers.length = 0
    ∧ ¬ (1 ≤ (thread_pool_default 0).workers.length) := by
  decide

/-- Claim C6 (amended): construction with argument `num_threads` starts
exactly `num_threads` workers; with the argument omitted it starts exactly
the platform-reported hardware concurrency, with no minimum clamp. -/
theorem C6_construction_worker_count (num_threads hc : Nat) :
    (thread_pool num_threads).workers.length = num_threads
    ∧ (thread_pool_default hc).workers.length = hc := by
  simp [thread_pool, thread_pool_default]

/-- Claim C7: each future is written exactly once — over a full lifecycle
the store of resolved futures holds exactly one entry for each submitted
task's identity — and after that write the caller may call `get()` any
number of times, each such read (a pure observation of the resolved store)
returning the stored value or re-raising the stored failure. -/
theorem C7_single_write (n : Nat) (hn : 1 ≤ n)
    (jobs : List ((Val → Outcome) × Val)) (i : Nat) (hi : i < jobs.length) :
    writeCount (runPool n jobs).2.pool.results i = 1
    ∧ future_get (runPool n jobs).2.pool.results i
        = some ((jobs.get ⟨i, hi⟩).1 (jobs.get ⟨i, hi⟩).2) :=
  ⟨runPool_writeCount n hn jobs i hi, runPool_get n hn jobs i hi⟩

/-- Witness for C7: one worker, two tasks; future 1 is written once and
reads back its task's value. -/
theorem C7_witness :
    writeCount (runPool 1
        [((fun v => Except.ok v : Val → Outcome), Val.unit),
         ((fun v => Except.ok v : Val → Outcome), Val.int 5)]).2.pool.results 1
      = 1
    ∧ future_get (runPool 1
        [((fun v => Except.ok v : Val → Outcome), Val.unit),
         ((fun v => Except.ok v : Val → Outcome), Val.int 5)]).2.pool.results 1
      = some (Except.ok (Val.int 5)) :=
  C7_single_write 1 (by decide)
    [((fun v => Except.ok v : Val → Outcome), Val.unit),
     ((fun v => Except.ok v : Val → Outcome), Val.int 5)] 1 (by decide)

/-- Claim C8: pool teardown raises the stop flag (idempotently: a second
raise changes nothing), then wakes all waiters, then joins every worker in
order — the destructor's action sequence is literally stop, unlock,
notify-all, then one join per worker — and it completes only once every
worker has exited its loop, leaving the pool in the terminal stopped
state. -/
theorem C8_teardown_sequence (sys : SysState) :
    raiseStop (raiseStop sys.pool) = raiseStop sys.pool
    ∧ (destructor sys).pool.m_stop = true
    ∧ (destructor sys).workers
        = List.replicate sys.workers.length WStatus.exited
    ∧ isStopped (destructor sys) = true
    ∧ destructorOps sys.workers.length
        = [MicroOp.lockAcquire, MicroOp.setStop, MicroOp.lockRelease,
           MicroOp.notifyAll]
            ++ List.replicate sys.workers.length MicroOp.joinOne := by
  have hstop : (destructor sys).pool.m_stop = true := by
    simp only [destructor]
    rw [joinAll_stop]
    rfl
  have hworkers : (destructor sys).workers
      = List.replicate sys.workers.length WStatus.exited := by
    simp only [destructor]
    rw [joinAll_workers]
  refine ⟨rfl, hstop, hworkers, ?_, rfl⟩
  rw [isStopped, hstop, hworkers]
  simp only [Bool.true_and, List.all_eq_true]
  intro w hw
  rw [List.eq_of_mem_replicate hw]
  rfl

/-- Claim C9: the queue mutex is never held across task execution: reading
the actions of the source's straight-line critical sections off the code,
the mutex is held exactly for the acquire-check-pop (worker) or
acquire-check-push (enqueue) section, and both the task invocation and the
`notify_one` run after the release, with the mutex not held. -/
theorem C9_lock_discipline :
    lockTrace false workerIterOps
      = [(MicroOp.lockAcquire, true), (MicroOp.checkStop, true),
         (MicroOp.popFront, true), (MicroOp.lockRelease, false),
         (MicroOp.execTask, false)]
    ∧ lockTrace false enqueueOps
      = [(MicroOp.lockAcquire, true), (MicroOp.checkStop, true),
         (MicroOp.pushBack, true), (MicroOp.lockRelease, false),
         (MicroOp.notifyOne, false)] :=
  ⟨rfl, rfl⟩

/-- Claim C10: constructing a pool with `num_threads = 0` succeeds with
exactly zero workers; `enqueue` on it still accepts the task — queueing it
and returning the future — even though no worker exists to pop it; and
teardown still completes, reaching the stopped state with the queued task
never executed (no future ever written). -/
theorem C10_zero_worker_pool :
    (thread_pool 0).workers.length = 0
    ∧ (enqueue (thread_pool 0).pool (fun v => Except.ok v) Val.unit).1
        = Except.ok 0
    ∧ (enqueue (thread_pool 0).pool (fun v => Except.ok v) Val.unit).2.m_tasks
        = [⟨0, Except.ok Val.unit⟩]
    ∧ isStopped (destructor
        { pool := (enqueue (thread_pool 0).pool (fun v => Except.ok v) Val.unit).2,
          workers := (thread_pool 0).workers }) = true
    ∧ (destructor
        { pool := (enqueue (thread_pool 0).pool (fun v => Except.ok v) Val.unit).2,
          workers := (thread_pool 0).workers }).pool.results = [] :=
  ⟨rfl, rfl, rfl, rfl, rfl⟩

end qlib
